import Mathlib

/-!
Verification of the SmartAgro leaf-diagnosis web application (`app.py`).

The Flask handlers are shallowly embedded as pure Lean functions over an
explicit session / database state.  Floating-point values are idealised as
rationals; the externally supplied Keras classifier and PIL image loader are
passed in as fallible oracle functions (`Except String _` models a Python
exception).  Python exceptions escaping a handler are modelled by the
handler itself returning `Except.error`.
-/

namespace SmartAgro

/-! ## Character/list utilities shared by the filename handling -/

/-- Characters kept by werkzeug's `secure_filename` strip regex
`[^A-Za-z0-9_.-]` (everything else is deleted). -/
def isSafeChar (c : Char) : Bool :=
  c.isAlphanum || c == '_' || c == '.' || c == '-'

/-- Remove trailing characters satisfying `bad` (right half of Python's
`str.strip`). -/
def rstrip (bad : Char → Bool) : List Char → List Char
  | [] => []
  | c :: cs =>
    match rstrip bad cs with
    | [] => if bad c then [] else [c]
    | r :: rs => c :: r :: rs

/-- Python's `str.strip(chars)`: drop the characters satisfying `bad` from
both ends. -/
def pyStrip (bad : Char → Bool) (l : List Char) : List Char :=
  rstrip bad (l.dropWhile bad)

/-- Python's `str.strip()` (whitespace strip), as used on form fields. -/
def pyStripWs (s : String) : String :=
  String.mk (pyStrip Char.isWhitespace s.data)

/-- Collapse every maximal run of whitespace into a single underscore.
werkzeug computes `"_".join(filename.split())`, which differs only in that
a leading/trailing whitespace run produces no underscore at all; the
subsequent `.strip("._")` deletes those end underscores, so the final
`secure_filename` results coincide. -/
def collapseWsRuns : List Char → List Char
  | [] => []
  | c :: cs =>
    if c.isWhitespace then
      match cs with
      | [] => ['_']
      | d :: _ =>
        if d.isWhitespace then collapseWsRuns cs else '_' :: collapseWsRuns cs
    else c :: collapseWsRuns cs

/-- The characters removed from both ends by `.strip("._")`. -/
def badStripChar (c : Char) : Bool := c == '.' || c == '_'

/-- Modelled from the spec and the werkzeug library source:
`werkzeug.utils.secure_filename` is external to this repository.  Pipeline:
NFKD-normalise and drop non-ASCII (approximated here as dropping all
non-ASCII code points), replace the OS path separator `/` by a space,
join the whitespace-split words with underscores, delete every character
outside `[A-Za-z0-9_.-]`, and strip `.`/`_` from both ends.  (The
Windows-only reserved-name branch is not reachable on the POSIX target.) -/
def sfChars (cs : List Char) : List Char :=
  let ascii := cs.filter (fun c => c.toNat ≤ 127)
  let noSep := ascii.map (fun c => if c == '/' then ' ' else c)
  let joined := collapseWsRuns noSep
  let kept := joined.filter isSafeChar
  pyStrip badStripChar kept

def secure_filename (s : String) : String := String.mk (sfChars s.data)

/-! ## Upload validation (`allowed_file`, app.py lines 48-49) -/

def ALLOWED_EXTENSIONS : List String := ["png", "jpg", "jpeg"]

/-- `filename.rsplit('.', 1)[1]` guarded by `'.' in filename`: the segment
after the last dot, or `none` when the filename has no dot. -/
def extAfterLastDot (cs : List Char) : Option (List Char) :=
  if '.' ∈ cs then some ((cs.reverse.takeWhile (fun c => c ≠ '.')).reverse)
  else none

/-- `allowed_file` from app.py:
`'.' in filename and filename.rsplit('.', 1)[1].lower() in ALLOWED_EXTENSIONS`. -/
def allowed_file (filename : String) : Bool :=
  match extAfterLastDot filename.data with
  | none => false
  | some e => ALLOWED_EXTENSIONS.contains (String.mk (e.map Char.toLower))

/-- An uploaded file part: its client-supplied filename and raw bytes. -/
structure UploadFile where
  filename : String
  content : List Nat
deriving DecidableEq

/-- The guard on app.py line 132:
`file and file.filename != "" and allowed_file(file.filename)`.
`request.files.get` yields `none` when the part is absent, and a werkzeug
`FileStorage` is truthy iff its filename is nonempty.  The file *content*
is never inspected. -/
def fileAccepted : Option UploadFile → Bool
  | none => false
  | some f => (!(f.filename == "")) && allowed_file f.filename

/-! ## Data model -/

/-- One entry of the per-session diagnosis history (app.py lines 146-151). -/
structure DiagRecord where
  filename : String
  prediction : String
  confidence : ℚ
  image_url : String
deriving DecidableEq

/-- The Flask `session` dict restricted to the two keys the app uses:
`"user"` and `"history"`; a missing key is `none`. -/
structure SessionState where
  user : Option String
  history : Option (List DiagRecord)
deriving DecidableEq

/-- The value a route handler produces (rendered template or redirect). -/
inductive Response where
  | redirectTo (endpoint : String)
  | renderPage (template : String) (message : Option String)
  | renderDiagnose (prediction : Option String) (confidence : Option ℚ)
      (image_url : Option String)
  | renderHistory (entries : List DiagRecord)
  | renderInfo (disease : String)
  | plainText (body : String)
deriving DecidableEq

/-! ## Password hashing -/

/-- Modelled from the spec: `passlib.hash.bcrypt` is an external library,
not part of this repository.  Per §4.2 of the spec the hash is a
"deterministic-format output embedding salt and cost parameters"; the salt
randomness is made explicit as a parameter and the one-way digest is
idealised as perfectly collision-free (one-wayness is a computational
notion with no shallow embedding). -/
structure HashedString where
  salt : Nat
  digest : String
deriving DecidableEq

/-- Modelled from the spec: `bcrypt.hash(plaintext)` with the random salt
made explicit. -/
def bcryptHash (plaintext : String) (salt : Nat) : HashedString :=
  ⟨salt, plaintext⟩

/-- Modelled from the spec: `bcrypt.verify(plaintext, hashed)` recomputes
the digest with the embedded salt and compares. -/
def bcryptVerify (plaintext : String) (hs : HashedString) : Bool :=
  hs.digest == plaintext

/-! ## Credential store (`users` table, app.py lines 27-45) -/

/-- A row of the `users` table. -/
structure UserRecord where
  id : Nat
  username : String
  password : HashedString
deriving DecidableEq

def nextId (db : List UserRecord) : Nat :=
  (db.map (fun u => u.id)).foldl max 0 + 1

def usernameTaken (db : List UserRecord) (u : String) : Bool :=
  db.any (fun r => r.username == u)

/-- `INSERT INTO users ...` under the `username UNIQUE` constraint:
`none` models the `sqlite3.IntegrityError` raised on a duplicate. -/
def insertUser (db : List UserRecord) (u : String) (hp : HashedString) :
    Option (List UserRecord) :=
  if usernameTaken db u then none else some (db ++ [⟨nextId db, u, hp⟩])

def findUser (db : List UserRecord) (u : String) : Option UserRecord :=
  db.find? (fun r => r.username == u)

/-! ## Auth routes (app.py lines 70-117) -/

/-- The `/signup` handler (app.py lines 70-91); `salt` is the randomness
consumed by `bcrypt.hash`. -/
def signup (db : List UserRecord) (isPost : Bool) (username passwd : String)
    (salt : Nat) : Response × List UserRecord :=
  if isPost then
    let u := pyStripWs username
    let p := pyStripWs passwd
    if u = "" ∨ p = "" then
      (.renderPage "signup" (some "Username and password required"), db)
    else
      match insertUser db u (bcryptHash p salt) with
      | some db2 => (.redirectTo "login", db2)
      | none => (.renderPage "signup" (some "Username already exists"), db)
  else (.renderPage "signup" none, db)

/-- The `/login` handler (app.py lines 94-110). -/
def login (db : List UserRecord) (sess : SessionState) (isPost : Bool)
    (username passwd : String) : Response × SessionState :=
  if isPost then
    let u := pyStripWs username
    let p := pyStripWs passwd
    match findUser db u with
    | some r =>
      if bcryptVerify p r.password then
        (.redirectTo "index", { user := some u, history := some (sess.history.getD []) })
      else (.renderPage "login" (some "Invalid credentials"), sess)
    | none => (.renderPage "login" (some "Invalid credentials"), sess)
  else (.renderPage "login" none, sess)

/-- The `/logout` handler (app.py lines 113-117). -/
def logout (_sess : SessionState) : Response × SessionState :=
  (.redirectTo "login", { user := none, history := none })

/-! ## Session-gated routes -/

def indexRoute (sess : SessionState) : Response × SessionState :=
  if sess.user.isNone then (.redirectTo "login", sess)
  else (.renderPage "index" none, sess)

def infoRoute (sess : SessionState) (disease : String) : Response × SessionState :=
  if sess.user.isNone then (.redirectTo "login", sess)
  else (.renderInfo disease, sess)

def historyRoute (sess : SessionState) : Response × SessionState :=
  if sess.user.isNone then (.redirectTo "login", sess)
  else (.renderHistory (sess.history.getD []), sess)

/-- The `/clear_history` handler (app.py lines 187-193):
`session.pop("history", None)` removes the key; `"user"` is untouched. -/
def clear_history (sess : SessionState) : Response × SessionState :=
  if sess.user.isNone then (.redirectTo "login", sess)
  else (.redirectTo "history", { sess with history := none })

def pingRoute : Response := .plainText "pong"

/-! ## Diagnosis pipeline (app.py lines 120-164) -/

def class_names : List String := ["Healthy", "Mosaic", "RedRot", "Rust", "Yellow"]

def UPLOAD_FOLDER : String := "static/uploads"

/-- `np.argmax` on a flat vector: index and value of the first occurrence
of the maximum; `none` on an empty vector (numpy raises there). -/
def argmaxPair : List ℚ → Option (Nat × ℚ)
  | [] => none
  | x :: xs =>
    match argmaxPair xs with
    | none => some (0, x)
    | some (i, v) => if x < v then some (i + 1, v) else some (0, x)

/-- Python's `round(x, 2)` (banker's rounding to two decimal places),
idealised over ℚ. -/
def pyRound2 (x : ℚ) : ℚ :=
  let y := x * 100
  let f := ⌊y⌋
  let r : ℤ :=
    if y - f < 1/2 then f
    else if (1:ℚ)/2 < y - f then f + 1
    else if f % 2 = 0 then f else f + 1
  (r : ℚ) / 100

/-- The body of the `try` block after `model.predict` succeeds
(app.py lines 140-142): `class_names[np.argmax(preds)]`,
`round(float(np.max(preds)) * 100, 2)` and the image URL.  `none` models
any exception inside the block (empty prediction vector, label index out
of range), which the `except` clause catches. -/
def classifyStep (preds : List ℚ) (filename : String) :
    Option (String × ℚ × String) :=
  match argmaxPair preds with
  | none => none
  | some (i, _) =>
    match class_names.get? i with
    | none => none
    | some label =>
      match preds.max? with
      | none => none
      | some m => some (label, pyRound2 (m * 100), UPLOAD_FOLDER ++ "/" ++ filename)

/-- `prepare_image` (app.py lines 51-55): `load_img` may raise (malformed
image), then the pixel values are scaled by 1/255.  The caller passes the
loader as an oracle. -/
def prepare_image (load_img : String → Except String (List ℚ)) (path : String) :
    Except String (List ℚ) :=
  match load_img path with
  | .error e => .error e
  | .ok img => .ok (img.map (fun v => v / 255))

/-- The history append on app.py lines 145-152:
`history = session.get("history", []); history.append(rec);
session["history"] = history`. -/
def appendHistory (sess : SessionState) (r : DiagRecord) : SessionState :=
  { sess with history := some (sess.history.getD [] ++ [r]) }

/-- A request to `/diagnose`. -/
structure DiagRequest where
  isPost : Bool
  file : Option UploadFile
deriving DecidableEq

/-- The `/diagnose` handler (app.py lines 120-164).  `load_img` and
`predict` are the external PIL loader and Keras model.  Note the source
places `prepare_image` *outside* the `try` block, so a loader exception
propagates out of the handler (`Except.error`), while exceptions from
`model.predict` onwards are caught and replaced by the sentinel
`("Error", 0)` page. -/
def diagnose (load_img : String → Except String (List ℚ))
    (predict : List ℚ → Except String (List ℚ))
    (sess : SessionState) (req : DiagRequest) :
    Except String (Response × SessionState) :=
  if sess.user.isNone then .ok (.redirectTo "login", sess)
  else if req.isPost then
    match req.file with
    | some f =>
      if fileAccepted (some f) then
        let filename := secure_filename f.filename
        let file_path := UPLOAD_FOLDER ++ "/" ++ filename
        match prepare_image load_img file_path with
        | .error e => .error e
        | .ok img =>
          match predict img with
          | .error _ => .ok (.renderDiagnose (some "Error") (some 0) none, sess)
          | .ok preds =>
            match classifyStep preds filename with
            | none => .ok (.renderDiagnose (some "Error") (some 0) none, sess)
            | some (label, conf, url) =>
              .ok (.renderDiagnose (some label) (some conf) (some url),
                   appendHistory sess ⟨filename, label, conf, url⟩)
      else .ok (.renderDiagnose none none none, sess)
    | none => .ok (.renderDiagnose none none none, sess)
  else .ok (.renderDiagnose none none none, sess)

/-! ## Path resolution model for the traversal claim -/

/-- Split a path on `/` into segments. -/
def splitSlash : List Char → List (List Char)
  | [] => [[]]
  | c :: cs =>
    match splitSlash cs with
    | [] => [[c]]
    | a :: as =>
      if c = '/' then [] :: a :: as else (c :: a) :: as

/-- One step of POSIX-style lexical path resolution: empty and `.`
segments are dropped, `..` pops the previous segment. -/
def resolveStep (acc : List (List Char)) (seg : List Char) : List (List Char) :=
  if seg = [] ∨ seg = ['.'] then acc
  else if seg = ['.', '.'] then acc.dropLast
  else acc ++ [seg]

def resolvePath (segs : List (List Char)) : List (List Char) :=
  segs.foldl resolveStep []

/-- The segments of `UPLOAD_FOLDER`. -/
def uploadSegs : List (List Char) := ["static".data, "uploads".data]

/-- The session state `/login` creates for user `u`:
`session["user"] = u; session.setdefault("history", [])` on a session that
had no history. -/
def freshSession (u : String) : SessionState := ⟨some u, some []⟩

/-- The claim C2 rejection condition, formalised exactly as stated:
empty filename, empty content, or the final dot-delimited segment of the
filename (lowercased) outside the allowed set. -/
def claimedRejectCond (f : UploadFile) : Prop :=
  f.filename = "" ∨ f.content = [] ∨
    ¬ ALLOWED_EXTENSIONS.contains
        (String.mk ((f.filename.data.reverse.takeWhile (fun c => c ≠ '.')).reverse.map
          Char.toLower)) = true

/-! ## Helper lemmas -/

lemma mem_of_mem_rstrip {bad : Char → Bool} {x : Char} :
    ∀ {l : List Char}, x ∈ rstrip bad l → x ∈ l := by
  intro l
  induction l with
  | nil => simp [rstrip]
  | cons c cs ih =>
    intro hx
    rw [rstrip] at hx
    rcases hr : rstrip bad cs with - | ⟨r, rs⟩
    · rw [hr] at hx
      rcases hb : bad c with - | -
      · rw [hb] at hx
        simp at hx
        simp [hx]
      · rw [hb] at hx
        simp at hx
    · rw [hr] at hx
      rcases List.mem_cons.mp hx with h | h
      · simp [h]
      · exact List.mem_cons_of_mem _ (ih (hr ▸ h))

lemma mem_of_mem_dropWhileX {bad : Char → Bool} {x : Char} :
    ∀ {l : List Char}, x ∈ l.dropWhile bad → x ∈ l := by
  intro l
  induction l with
  | nil => simp
  | cons c cs ih =>
    intro hx
    rcases hb : bad c with - | -
    · rw [List.dropWhile_cons_of_neg (by simp [hb])] at hx
      exact hx
    · rw [List.dropWhile_cons_of_pos hb] at hx
      exact List.mem_cons_of_mem _ (ih hx)

lemma mem_of_mem_pyStrip {bad : Char → Bool} {x : Char} {l : List Char}
    (hx : x ∈ pyStrip bad l) : x ∈ l :=
  mem_of_mem_dropWhileX (mem_of_mem_rstrip hx)

lemma rstrip_head {bad : Char → Bool} :
    ∀ {l : List Char} {y : Char} {ys : List Char},
      rstrip bad l = y :: ys → l.head? = some y := by
  intro l
  induction l with
  | nil => intro y ys h; simp [rstrip] at h
  | cons c cs _ =>
    intro y ys h
    rw [rstrip] at h
    rcases hr : rstrip bad cs with - | ⟨r, rs⟩
    · rw [hr] at h
      rcases hb : bad c with - | -
      · rw [hb] at h
        simp at h
        simp [h.1]
      · rw [hb] at h
        simp at h
    · rw [hr] at h
      rw [List.cons.injEq] at h
      simp [h.1]

lemma dropWhile_head_false {bad : Char → Bool} :
    ∀ {l : List Char} {y : Char} {ys : List Char},
      l.dropWhile bad = y :: ys → bad y = false := by
  intro l
  induction l with
  | nil => intro y ys h; simp at h
  | cons c cs ih =>
    intro y ys h
    rcases hb : bad c with - | -
    · rw [List.dropWhile_cons_of_neg (by simp [hb])] at h
      rw [List.cons.injEq] at h
      rw [← h.1]
      exact hb
    · rw [List.dropWhile_cons_of_pos hb] at h
      exact ih h

lemma pyStrip_head_false {bad : Char → Bool} {l : List Char} {y : Char}
    {ys : List Char} (h : pyStrip bad l = y :: ys) : bad y = false := by
  have h1 := rstrip_head h
  rcases hd : l.dropWhile bad with - | ⟨z, zs⟩
  · rw [hd] at h1; simp at h1
  · rw [hd] at h1
    simp at h1
    rw [h1] at hd
    exact dropWhile_head_false hd

lemma sfChars_safe {c : Char} {l : List Char} (hc : c ∈ sfChars l) :
    isSafeChar c = true := by
  have h1 := mem_of_mem_pyStrip hc
  exact (List.mem_filter.mp h1).2

lemma splitSlash_of_no_slash :
    ∀ {l : List Char}, (∀ c ∈ l, c ≠ '/') → splitSlash l = [l] := by
  intro l
  induction l with
  | nil => intro _; rfl
  | cons c cs ih =>
    intro h
    rw [splitSlash, ih (fun x hx => h x (List.mem_cons_of_mem _ hx))]
    show (if c = '/' then [[], cs] else [c :: cs]) = [c :: cs]
    rw [if_neg (h c (List.mem_cons_self c cs))]

lemma foldl_appendHistory (recs : List DiagRecord) :
    ∀ (s : SessionState) (h0 : List DiagRecord), s.history = some h0 →
      (recs.foldl appendHistory s).history = some (h0 ++ recs)
      ∧ (recs.foldl appendHistory s).user = s.user := by
  induction recs with
  | nil => intro s h0 hs; simp [hs]
  | cons r rs ih =>
    intro s h0 hs
    have step : appendHistory s r = ⟨s.user, some (h0 ++ [r])⟩ := by
      simp [appendHistory, hs]
    rw [List.foldl_cons, step]
    have := ih ⟨s.user, some (h0 ++ [r])⟩ (h0 ++ [r]) rfl
    simpa using this

/-! ## Claim theorems -/

/-- C2 counterexample: the upload `("a.png", empty content)` satisfies the
claim's rejection condition (empty content) yet the code accepts it — the
guard never inspects the file content. -/
theorem c2_counterexample :
    claimedRejectCond ⟨"a.png", []⟩
    ∧ fileAccepted (some ⟨"a.png", []⟩) = true := by
  exact ⟨Or.inr (Or.inl rfl), by decide⟩

/-- C2 (amended): for a present file part, the validator accepts exactly
when the filename is nonempty and has a dot whose final segment,
lowercased, lies in `{png, jpg, jpeg}`; content is never examined.
`leaf.exe` is rejected, `leaf.JPG` is accepted, an empty filename and an
absent file part are rejected. -/
theorem c2_amended :
    (∀ f : UploadFile,
       fileAccepted (some f) = true
         ↔ (f.filename ≠ "" ∧ ∃ e, extAfterLastDot f.filename.data = some e
              ∧ String.mk (e.map Char.toLower) ∈ ALLOWED_EXTENSIONS))
  ∧ fileAccepted (some ⟨"leaf.exe", [0]⟩) = false
  ∧ fileAccepted (some ⟨"leaf.JPG", [0]⟩) = true
  ∧ fileAccepted (some ⟨"", [0]⟩) = false
  ∧ fileAccepted none = false := by
  refine ⟨?_, by decide, by decide, by decide, by decide⟩
  intro f
  rw [fileAccepted]
  rw [Bool.and_eq_true, Bool.not_eq_true', beq_eq_false_iff_ne]
  constructor
  · rintro ⟨hne, hall⟩
    refine ⟨hne, ?_⟩
    rw [allowed_file] at hall
    rcases hx : extAfterLastDot f.filename.data with - | e
    · rw [hx] at hall; cases hall
    · rw [hx] at hall
      exact ⟨e, rfl, List.elem_iff.mp hall⟩
  · rintro ⟨hne, e, he, hmem⟩
    refine ⟨hne, ?_⟩
    rw [allowed_file, he]
    exact List.elem_iff.mpr hmem

/-- C3: after N history appends on a fresh session, the history route
renders exactly those N records in append order; `clear_history` then
empties the history while the logged-in user association survives. -/
theorem c3_history_accumulation (u : String) (recs : List DiagRecord) :
    (historyRoute (recs.foldl appendHistory (freshSession u))).1
      = .renderHistory recs
  ∧ (clear_history (recs.foldl appendHistory (freshSession u))).2.user = some u
  ∧ (historyRoute (clear_history (recs.foldl appendHistory (freshSession u))).2).1
      = .renderHistory [] := by
  obtain ⟨hh, hu⟩ := foldl_appendHistory recs (freshSession u) [] rfl
  have hu' : (recs.foldl appendHistory (freshSession u)).user = some u := hu
  refine ⟨?_, ?_, ?_⟩
  · simp [historyRoute, hu', hh]
  · simp [clear_history, hu']
  · simp [clear_history, historyRoute, hu']

/-- C5: signing up with a username already present in the credential
store yields the duplicate-username error page and leaves the store
completely unchanged. -/
theorem c5_duplicate_signup (db : List UserRecord) (username passwd : String)
    (salt : Nat) (hu : pyStripWs username ≠ "") (hp : pyStripWs passwd ≠ "")
    (htaken : usernameTaken db (pyStripWs username) = true) :
    signup db true username passwd salt
      = (.renderPage "signup" (some "Username already exists"), db) := by
  simp [signup, insertUser, hu, hp, htaken]

theorem c5_duplicate_signup_witness :
    signup [⟨1, "alice", bcryptHash "pw" 0⟩] true "alice" "secret" 5
      = (.renderPage "signup" (some "Username already exists"),
         [⟨1, "alice", bcryptHash "pw" 0⟩]) :=
  c5_duplicate_signup _ _ _ _ (by decide) (by decide) (by decide)

/-- C6: a login attempt with an unknown username and one with a known
username but wrong password produce identical responses — the same
"Invalid credentials" page — and neither creates any session state. -/
theorem c6_login_failure_indistinguishable (db : List UserRecord)
    (sess : SessionState) (u1 p1 u2 p2 : String) (r : UserRecord)
    (h1 : findUser db (pyStripWs u1) = none)
    (h2 : findUser db (pyStripWs u2) = some r)
    (h3 : bcryptVerify (pyStripWs p2) r.password = false) :
    login db sess true u1 p1
        = (.renderPage "login" (some "Invalid credentials"), sess)
    ∧ login db sess true u2 p2
        = (.renderPage "login" (some "Invalid credentials"), sess)
    ∧ login db sess true u1 p1 = login db sess true u2 p2 := by
  have e1 : login db sess true u1 p1
      = (.renderPage "login" (some "Invalid credentials"), sess) := by
    simp [login, h1]
  have e2 : login db sess true u2 p2
      = (.renderPage "login" (some "Invalid credentials"), sess) := by
    simp [login, h2, h3]
  exact ⟨e1, e2, e1.trans e2.symm⟩

theorem c6_login_failure_indistinguishable_witness :
    login [⟨1, "bob", bcryptHash "pw" 0⟩] ⟨none, none⟩ true "alice" "x"
        = (.renderPage "login" (some "Invalid credentials"), ⟨none, none⟩)
    ∧ login [⟨1, "bob", bcryptHash "pw" 0⟩] ⟨none, none⟩ true "bob" "wrong"
        = (.renderPage "login" (some "Invalid credentials"), ⟨none, none⟩)
    ∧ login [⟨1, "bob", bcryptHash "pw" 0⟩] ⟨none, none⟩ true "alice" "x"
        = login [⟨1, "bob", bcryptHash "pw" 0⟩] ⟨none, none⟩ true "bob" "wrong" :=
  c6_login_failure_indistinguishable _ _ _ _ _ _ ⟨1, "bob", bcryptHash "pw" 0⟩
    (by decide) (by decide) (by decide)

/-- C7: a password verifies against its own hash, any other password does
not, and hashing the same plaintext with two different salts yields two
different hash values that both verify against the original plaintext. -/
theorem c7_hash_verify (p q : String) (s1 s2 : Nat) (hq : q ≠ p)
    (hs : s1 ≠ s2) :
    bcryptVerify p (bcryptHash p s1) = true
  ∧ bcryptVerify q (bcryptHash p s1) = false
  ∧ bcryptHash p s1 ≠ bcryptHash p s2
  ∧ bcryptVerify p (bcryptHash p s2) = true := by
  refine ⟨by simp [bcryptVerify, bcryptHash], ?_, ?_,
    by simp [bcryptVerify, bcryptHash]⟩
  · rw [bcryptVerify, bcryptHash]
    simp only [beq_eq_false_iff_ne, ne_eq]
    exact fun h => hq h.symm
  · rw [bcryptHash, bcryptHash]
    intro h
    rw [HashedString.mk.injEq] at h
    exact hs h.1

theorem c7_hash_verify_witness :
    bcryptVerify "pw123" (bcryptHash "pw123" 0) = true
  ∧ bcryptVerify "other" (bcryptHash "pw123" 0) = false
  ∧ bcryptHash "pw123" 0 ≠ bcryptHash "pw123" 1
  ∧ bcryptVerify "pw123" (bcryptHash "pw123" 1) = true :=
  c7_hash_verify "pw123" "other" 0 1 (by decide) (by decide)

/-- C9: every session-protected route (index, diagnose, info, history,
clear-history) invoked without a logged-in user returns a redirect to the
login endpoint, leaves the session untouched, and never raises. -/
theorem c9_auth_gate (sess : SessionState) (h : sess.user = none) :
    indexRoute sess = (.redirectTo "login", sess)
  ∧ (∀ load_img predict req,
       diagnose load_img predict sess req = .ok (.redirectTo "login", sess))
  ∧ (∀ d, infoRoute sess d = (.redirectTo "login", sess))
  ∧ historyRoute sess = (.redirectTo "login", sess)
  ∧ clear_history sess = (.redirectTo "login", sess) := by
  refine ⟨?_, ?_, ?_, ?_, ?_⟩ <;>
    simp [indexRoute, diagnose, infoRoute, historyRoute, clear_history, h]

/-- C8: for every input filename, the sanitized storage name produced by
`secure_filename` contains no path separator and no leading dot, so
lexically resolving the path obtained by joining it to the upload folder
always stays inside the upload folder — no directory traversal. -/
theorem c8_no_traversal (f : String) :
    ∃ rest, resolvePath (uploadSegs ++ splitSlash (secure_filename f).data)
      = uploadSegs ++ rest := by
  have hsafe : ∀ c ∈ (secure_filename f).data, isSafeChar c = true := by
    intro c hc
    exact sfChars_safe hc
  have hns : ∀ c ∈ (secure_filename f).data, c ≠ '/' := by
    intro c hc heq
    have h := hsafe c hc
    rw [heq] at h
    exact absurd h (by decide)
  rw [splitSlash_of_no_slash hns]
  have base : resolvePath (uploadSegs ++ [(secure_filename f).data])
      = resolveStep uploadSegs (secure_filename f).data := rfl
  rw [base]
  rcases hn : (secure_filename f).data with - | ⟨y, ys⟩
  · refine ⟨[], ?_⟩
    rw [resolveStep, if_pos (Or.inl rfl)]
    simp
  · have hy : badStripChar y = false := pyStrip_head_false hn
    have hyd : y ≠ '.' := by
      intro he
      rw [he] at hy
      exact absurd hy (by decide)
    have h1 : ¬ (y :: ys = [] ∨ y :: ys = ['.']) := by
      rintro (h | h)
      · simp at h
      · rw [List.cons.injEq] at h
        exact hyd h.1
    have h2 : y :: ys ≠ ['.', '.'] := by
      intro h
      rw [List.cons.injEq] at h
      exact hyd h.1
    exact ⟨[y :: ys], by rw [resolveStep, if_neg h1, if_neg h2]⟩

/-- C1 counterexample: an authenticated POST of an accepted file whose
image loading fails (`prepare_image` raises) makes the request itself
raise — the error propagates out of the handler instead of being caught
and turned into the sentinel, because `prepare_image` sits outside the
`try` block (app.py line 137). -/
theorem c1_counterexample :
    diagnose (fun _ => .error "cannot identify image file")
      (fun _ => .ok []) ⟨some "alice", some []⟩
      ⟨true, some ⟨"leaf.png", [0]⟩⟩
      = .error "cannot identify image file" := rfl

/-- C1 (amended): only errors raised from the model-prediction stage
onwards (`model.predict`, label lookup, rounding, recording) are caught
and replaced by the sentinel page `("Error", 0)` with the session left
unchanged; errors raised while loading/preprocessing the image occur
before the `try` block and propagate to the caller. -/
theorem c1_amended (load_img : String → Except String (List ℚ))
    (predict : List ℚ → Except String (List ℚ))
    (sess : SessionState) (req : DiagRequest) (un : String) (f : UploadFile)
    (img : List ℚ) (e : String)
    (hu : sess.user = some un) (hp : req.isPost = true) (hf : req.file = some f)
    (hacc : fileAccepted (some f) = true)
    (hprep : prepare_image load_img
        (UPLOAD_FOLDER ++ "/" ++ secure_filename f.filename) = .ok img)
    (hpredict : predict img = .error e) :
    diagnose load_img predict sess req
      = .ok (.renderDiagnose (some "Error") (some 0) none, sess) := by
  simp [diagnose, hu, hp, hf, hacc, hprep, hpredict]

theorem c1_amended_witness :
    diagnose (fun _ => .ok [1]) (fun _ => .error "model unavailable")
      ⟨some "alice", some []⟩ ⟨true, some ⟨"leaf.png", [0]⟩⟩
      = .ok (.renderDiagnose (some "Error") (some 0) none,
             ⟨some "alice", some []⟩) :=
  c1_amended _ _ _ _ "alice" ⟨"leaf.png", [0]⟩ [1/255] "model unavailable"
    rfl rfl rfl (by decide) rfl rfl

lemma foldl_max_max (l : List ℚ) :
    ∀ a b : ℚ, l.foldl max (max a b) = max a (l.foldl max b) := by
  induction l with
  | nil => intro a b; rfl
  | cons c cs ih =>
    intro a b
    show cs.foldl max (max (max a b) c) = max a (cs.foldl max (max b c))
    rw [max_assoc, ih]

lemma argmaxPair_cons_isSome (x : ℚ) (xs : List ℚ) :
    (argmaxPair (x :: xs)).isSome := by
  rw [argmaxPair]
  rcases h : argmaxPair xs with - | ⟨i, v⟩
  · simp
  · by_cases hlt : x < v <;> simp [hlt]

/-- `argmaxPair` really returns the first index of the maximum together
with the maximum value of the prediction vector. -/
lemma argmax_spec :
    ∀ (l : List ℚ) (i : Nat) (v : ℚ), argmaxPair l = some (i, v) →
      l.max? = some v ∧ l.get? i = some v
      ∧ ∀ j, j < i → ∀ w, l.get? j = some w → w < v := by
  intro l
  induction l with
  | nil => intro i v h; simp [argmaxPair] at h
  | cons x xs ih =>
    intro i v h
    rw [argmaxPair] at h
    rcases hx : argmaxPair xs with - | ⟨i', v'⟩
    · rw [hx] at h
      simp only [Option.some.injEq, Prod.mk.injEq] at h
      obtain ⟨hi, hv⟩ := h
      subst hi
      subst hv
      rcases xs with - | ⟨y, ys⟩
      · refine ⟨rfl, rfl, ?_⟩
        intro j hj
        exact absurd hj (Nat.not_lt_zero j)
      · exact absurd hx (by
          have := argmaxPair_cons_isSome y ys
          intro hc
          rw [hc] at this
          simp at this)
    · rw [hx] at h
      change (if x < v' then some (i' + 1, v') else some (0, x)) = some (i, v) at h
      obtain ⟨hmax, hget, hfirst⟩ := ih i' v' hx
      rcases xs with - | ⟨y, ys⟩
      · simp at hmax
      · rw [List.max?_cons'] at hmax
        rw [Option.some.injEq] at hmax
        by_cases hlt : x < v'
        · rw [if_pos hlt, Option.some.injEq, Prod.mk.injEq] at h
          obtain ⟨hi, hv⟩ := h
          subst hi
          subst hv
          refine ⟨?_, hget, ?_⟩
          · rw [List.max?_cons', Option.some.injEq]
            show (ys.foldl max (max x y)) = v'
            rw [foldl_max_max, hmax]
            exact max_eq_right hlt.le
          · intro j hj w hw
            rcases j with - | j
            · rw [List.get?] at hw
              rw [Option.some.injEq] at hw
              rw [← hw]
              exact hlt
            · exact hfirst j (Nat.lt_of_succ_lt_succ hj) w hw
        · rw [if_neg hlt, Option.some.injEq, Prod.mk.injEq] at h
          obtain ⟨hi, hv⟩ := h
          subst hi
          subst hv
          refine ⟨?_, rfl, ?_⟩
          · rw [List.max?_cons', Option.some.injEq]
            show (ys.foldl max (max x y)) = x
            rw [foldl_max_max, hmax]
            exact max_eq_left (not_lt.mp hlt)
          · intro j hj
            exact absurd hj (Nat.not_lt_zero j)

/-- C4: on the successful classification path the handler's confidence is
the maximum class probability as a percentage rounded to two decimals,
and the prediction is the `class_names` entry at the (first) index of
that maximum; the same pair is appended to the session history. -/
theorem c4_confidence_and_label (load_img : String → Except String (List ℚ))
    (predict : List ℚ → Except String (List ℚ))
    (sess : SessionState) (req : DiagRequest) (un : String) (f : UploadFile)
    (img preds : List ℚ)
    (hu : sess.user = some un) (hp : req.isPost = true) (hf : req.file = some f)
    (hacc : fileAccepted (some f) = true)
    (hprep : prepare_image load_img
        (UPLOAD_FOLDER ++ "/" ++ secure_filename f.filename) = .ok img)
    (hpredict : predict img = .ok preds)
    (hlen : preds.length = 5) :
    ∃ (i : Nat) (label : String) (m : ℚ),
      preds.max? = some m ∧ preds.get? i = some m
      ∧ (∀ j, j < i → ∀ w, preds.get? j = some w → w < m)
      ∧ class_names.get? i = some label ∧ label ∈ class_names
      ∧ diagnose load_img predict sess req =
          .ok (.renderDiagnose (some label) (some (pyRound2 (m * 100)))
                 (some (UPLOAD_FOLDER ++ "/" ++ secure_filename f.filename)),
               appendHistory sess
                 ⟨secure_filename f.filename, label, pyRound2 (m * 100),
                  UPLOAD_FOLDER ++ "/" ++ secure_filename f.filename⟩) := by
  rcases hpe : preds with - | ⟨x, xs⟩
  · rw [hpe] at hlen; simp at hlen
  rw [← hpe]
  have hsome : (argmaxPair preds).isSome := by
    rw [hpe]; exact argmaxPair_cons_isSome x xs
  rcases hA : argmaxPair preds with - | ⟨i, v⟩
  · rw [hA] at hsome; simp at hsome
  obtain ⟨hmax, hget, hfirst⟩ := argmax_spec preds i v hA
  have hilt : i < preds.length := by
    rcases List.get?_eq_some.mp hget with ⟨hw, -⟩
    exact hw
  have hic : i < class_names.length := by
    rw [hlen] at hilt
    exact hilt
  have hcl : class_names.get? i = some (class_names.get ⟨i, hic⟩) :=
    List.get?_eq_get hic
  refine ⟨i, class_names.get ⟨i, hic⟩, v, hmax, hget, hfirst, hcl,
    List.get_mem class_names i hic, ?_⟩
  have hcs : classifyStep preds (secure_filename f.filename)
      = some (class_names.get ⟨i, hic⟩, pyRound2 (v * 100),
              UPLOAD_FOLDER ++ "/" ++ secure_filename f.filename) := by
    simp only [classifyStep, hA, hcl, hmax]
  simp [diagnose, hu, hp, hf, hacc, hprep, hpredict, hcs]

theorem c4_confidence_and_label_witness :
    ∃ (i : Nat) (label : String) (m : ℚ),
      ([1/10, 7/10, 1/10, 1/20, 1/20] : List ℚ).max? = some m
      ∧ ([1/10, 7/10, 1/10, 1/20, 1/20] : List ℚ).get? i = some m
      ∧ (∀ j, j < i → ∀ w,
          ([1/10, 7/10, 1/10, 1/20, 1/20] : List ℚ).get? j = some w → w < m)
      ∧ class_names.get? i = some label ∧ label ∈ class_names
      ∧ diagnose (fun _ => .ok [1])
          (fun _ => .ok [1/10, 7/10, 1/10, 1/20, 1/20])
          ⟨some "alice", some []⟩ ⟨true, some ⟨"leaf.png", [0]⟩⟩ =
          .ok (.renderDiagnose (some label) (some (pyRound2 (m * 100)))
                 (some (UPLOAD_FOLDER ++ "/" ++ secure_filename "leaf.png")),
               appendHistory ⟨some "alice", some []⟩
                 ⟨secure_filename "leaf.png", label, pyRound2 (m * 100),
                  UPLOAD_FOLDER ++ "/" ++ secure_filename "leaf.png"⟩) :=
  c4_confidence_and_label _ _ _ _ "alice" ⟨"leaf.png", [0]⟩ [1/255]
    [1/10, 7/10, 1/10, 1/20, 1/20] rfl rfl rfl (by decide) rfl rfl (by decide)

/-- Every label the classification step can produce comes from
`class_names`. -/
lemma classifyStep_label_mem {preds : List ℚ} {fn label : String} {c : ℚ}
    {u : String} (h : classifyStep preds fn = some (label, c, u)) :
    label ∈ class_names := by
  rw [classifyStep] at h
  rcases h1 : argmaxPair preds with - | ⟨i, v⟩
  · simp [h1] at h
  · simp only [h1] at h
    rcases h2 : class_names.get? i with - | lab
    · rw [h2] at h
      exact absurd h (by simp)
    · rw [h2] at h
      rcases h3 : preds.max? with - | m
      · rw [h3] at h
        exact absurd h (by simp)
      · rw [h3] at h
        simp only [Option.some.injEq, Prod.mk.injEq] at h
        rw [← h.1]
        exact List.get?_mem h2

/-- C10: whenever the diagnose handler completes with the sentinel
`("Error", 0)` page, the session is left exactly as it was: no history
record is appended and the logged-in user association is unchanged. -/
theorem c10_failure_frame (load_img : String → Except String (List ℚ))
    (predict : List ℚ → Except String (List ℚ))
    (sess : SessionState) (req : DiagRequest)
    (conf : Option ℚ) (url : Option String) (s2 : SessionState)
    (h : diagnose load_img predict sess req
        = .ok (.renderDiagnose (some "Error") conf url, s2)) :
    s2.history = sess.history ∧ s2.user = sess.user := by
  simp only [diagnose] at h
  split at h
  · rw [Except.ok.injEq, Prod.mk.injEq] at h
    exact absurd h.1 (by simp)
  split at h
  · split at h
    · split at h
      · split at h
        · exact absurd h (by simp)
        · split at h
          · rw [Except.ok.injEq, Prod.mk.injEq] at h
            rw [← h.2]
            exact ⟨rfl, rfl⟩
          · split at h
            · rw [Except.ok.injEq, Prod.mk.injEq] at h
              rw [← h.2]
              exact ⟨rfl, rfl⟩
            · rename_i label confv urlv heq
              have hmem := classifyStep_label_mem heq
              rw [Except.ok.injEq, Prod.mk.injEq,
                Response.renderDiagnose.injEq] at h
              obtain ⟨⟨hl, -, -⟩, -⟩ := h
              rw [Option.some.injEq] at hl
              rw [hl] at hmem
              exact absurd hmem (by decide)
      · rw [Except.ok.injEq, Prod.mk.injEq] at h
        exact absurd h.1 (by simp)
    · rw [Except.ok.injEq, Prod.mk.injEq] at h
      exact absurd h.1 (by simp)
  · rw [Except.ok.injEq, Prod.mk.injEq] at h
    exact absurd h.1 (by simp)

theorem c10_failure_frame_witness :
    SessionState.history ⟨some "alice", some []⟩
        = SessionState.history ⟨some "alice", some []⟩
    ∧ SessionState.user ⟨some "alice", some []⟩
        = SessionState.user ⟨some "alice", some []⟩ :=
  c10_failure_frame (fun _ => .ok [1]) (fun _ => .error "model unavailable")
    ⟨some "alice", some []⟩ ⟨true, some ⟨"leaf.png", [0]⟩⟩
    (some 0) none ⟨some "alice", some []⟩ rfl

theorem c9_auth_gate_witness :
    indexRoute ⟨none, none⟩ = (.redirectTo "login", ⟨none, none⟩)
  ∧ (∀ load_img predict req,
       diagnose load_img predict ⟨none, none⟩ req
         = .ok (.redirectTo "login", ⟨none, none⟩))
  ∧ (∀ d, infoRoute ⟨none, none⟩ d = (.redirectTo "login", ⟨none, none⟩))
  ∧ historyRoute ⟨none, none⟩ = (.redirectTo "login", ⟨none, none⟩)
  ∧ clear_history ⟨none, none⟩ = (.redirectTo "login", ⟨none, none⟩) :=
  c9_auth_gate ⟨none, none⟩ rfl

end SmartAgro
